import Mathlib

/-!
Shallow embedding of the console inventory client (src/main.go): the static
table catalog, input validation, parameterized query builders, the
foreign-key resolver for related inserts, the table renderer, and the menu
dispatch loop.  Machine integers are modeled as `Int` with the 64-bit range
check that `strconv.Atoi` performs; strings are Lean strings with byte
lengths (`goLen`) where the Go code uses `len`.
-/

/-- Byte count of a character in UTF-8, as Go's `len` counts string bytes. -/
def charSize (c : Char) : Nat :=
  if c.toNat < 0x80 then 1
  else if c.toNat < 0x800 then 2
  else if c.toNat < 0x10000 then 3
  else 4

/-- Go `len(s)`: the number of bytes of the UTF-8 encoding of `s`. -/
def goLen (s : String) : Nat := (s.data.map charSize).sum

/-- Go `strings.Join(l, sep)`. -/
def goJoin (sep : String) : List String → String
  | [] => ""
  | [x] => x
  | x :: y :: xs => x ++ sep ++ goJoin sep (y :: xs)

/-- Whitespace in the sense of Go's `unicode.IsSpace` (used by `strings.TrimSpace`). -/
def isGoSpace (c : Char) : Bool :=
  let n := c.toNat
  n == 9 || n == 10 || n == 11 || n == 12 || n == 13 || n == 32 ||
  n == 0x85 || n == 0xA0 || n == 0x1680 ||
  (0x2000 ≤ n && n ≤ 0x200A) || n == 0x2028 || n == 0x2029 ||
  n == 0x202F || n == 0x205F || n == 0x3000

/-- Go `strings.TrimSpace`. -/
def goTrimSpace (s : String) : String :=
  String.mk (((s.data.dropWhile isGoSpace).reverse.dropWhile isGoSpace).reverse)

/-- Go `strconv.Atoi`: optional sign, one or more ASCII digits, 64-bit range. -/
def parseGoInt (s : String) : Option Int :=
  match s.data with
  | [] => none
  | c :: rest =>
    let (neg, digits) :=
      if c = '-' then (true, rest)
      else if c = '+' then (false, rest)
      else (false, c :: rest)
    if digits.isEmpty then none
    else if digits.all Char.isDigit then
      let n : Nat := digits.foldl (fun acc d => acc * 10 + (d.toNat - 48)) 0
      let v : Int := if neg then -(n : Int) else (n : Int)
      if v < -(2 ^ 63) ∨ (2 ^ 63 - 1 : Int) < v then none else some v
    else none

/-- Character class of the whitelist regexp
`^[a-zA-Zа-яА-ЯёЁ0-9\s\-\.]+$` (`\s` is `[\t\n\f\r ]` in Go regexp). -/
def isAllowedChar (c : Char) : Bool :=
  let n := c.toNat
  (97 ≤ n && n ≤ 122) || (65 ≤ n && n ≤ 90) ||
  (0x430 ≤ n && n ≤ 0x44F) || (0x410 ≤ n && n ≤ 0x42F) ||
  n == 0x451 || n == 0x401 ||
  (48 ≤ n && n ≤ 57) ||
  n == 9 || n == 10 || n == 12 || n == 13 || n == 32 ||
  n == 45 || n == 46

/-- Result of `whiteListRegex.MatchString`: one or more allowed characters. -/
def whiteListMatch (s : String) : Bool :=
  !s.data.isEmpty && s.data.all isAllowedChar

/-- Decimal digit character for `m % 10`, as `fmt.Sprintf("%d", ...)` prints. -/
def digitChar (m : Nat) : Char :=
  match m % 10 with
  | 0 => '0' | 1 => '1' | 2 => '2' | 3 => '3' | 4 => '4'
  | 5 => '5' | 6 => '6' | 7 => '7' | 8 => '8' | _ => '9'

/-- Decimal digits of a natural, least significant first; the first argument
is structural fuel, always called with at least the value itself. -/
def natDigitsAux : Nat → Nat → List Char
  | 0, _ => []
  | _ + 1, 0 => []
  | fuel + 1, n + 1 => digitChar ((n + 1) % 10) :: natDigitsAux fuel ((n + 1) / 10)

/-- Decimal rendering of a natural number (`fmt.Sprintf("%d", n)` for `n ≥ 0`). -/
def natToStr (n : Nat) : String :=
  if n = 0 then "0" else String.mk (natDigitsAux n n).reverse

/-- Number of `$` characters in a string; every placeholder contributes one. -/
def dollarCount (s : String) : Nat := s.data.count '$'

/-- Is `sep` a prefix of the character list? -/
def listIsPrefixOf : List Char → List Char → Bool
  | [], _ => true
  | _ :: _, [] => false
  | a :: as, b :: bs => a == b && listIsPrefixOf as bs

/-- Does `sep` occur in the character list? -/
def containsAux (sep : List Char) : List Char → Bool
  | [] => sep.isEmpty
  | c :: rest => listIsPrefixOf sep (c :: rest) || containsAux sep rest

/-- Does `sub` occur inside `s` (Go `strings.Contains`)? -/
def goContains (s sub : String) : Bool :=
  containsAux sub.data s.data

/-- Go `strings.Split(s, " и ")` specialized to the separator the program
uses: split around each non-overlapping occurrence, scanning left to right. -/
def goSplitRelAux : List Char → List Char → List (List Char)
  | [], acc => [acc.reverse]
  | ' ' :: 'и' :: ' ' :: rest, acc => acc.reverse :: goSplitRelAux rest []
  | c :: rest, acc => goSplitRelAux rest (c :: acc)

/-- Go `strings.Split(s, " и ")`. -/
def goSplitRel (s : String) : List String :=
  (goSplitRelAux s.data []).map String.mk

/-- Table descriptor: name and ordered column list (src/main.go `TableInfo`). -/
structure TableInfo where
  Name : String
  Columns : List String
deriving DecidableEq, Repr

/-- The static table catalog built by `loadTableInfo`. -/
def tables : List TableInfo :=
  [ { Name := "categories", Columns := ["id", "name", "description"] },
    { Name := "manufacturers", Columns := ["id", "name", "country", "founded_year"] },
    { Name := "components", Columns := ["id", "name", "category_id", "manufacturer_id", "model", "price"] },
    { Name := "stock", Columns := ["id", "component_id", "quantity", "warehouse_location"] } ]

/-- The related-table menu entries set up in `main`. -/
def relatedTables : List String :=
  ["components и stock", "categories и components", "manufacturers и components"]

/-- Column names given a numeric check in `updateData` and `insertData`. -/
def numericColumns : List String :=
  ["price", "quantity", "founded_year", "category_id", "manufacturer_id", "component_id"]

/-- Column names given a numeric check for the first table in `insertRelatedData`. -/
def relFirstNumericColumns : List String :=
  ["price", "founded_year", "category_id", "manufacturer_id"]

/-- Column names given a numeric check for the second table in `insertRelatedData`. -/
def relSecondNumericColumns : List String :=
  ["quantity", "price"]

/-- A bound query parameter: the Go code passes strings, except the returned
id in the second related insert, which is an `int`. -/
inductive Param where
  | intVal (n : Int)
  | strVal (s : String)
deriving DecidableEq, Repr

/-- Is this parameter a string (an operator-typed value)? -/
def Param.isStr : Param → Bool
  | .intVal _ => false
  | .strVal _ => true

/-- Validation errors surfaced by the handlers. -/
inductive VErr where
  | invalidCharacters
  | notANumber
deriving DecidableEq, Repr

/-- The value check every mutating handler performs: the whitelist regexp
first, then, when the column name is in the handler's numeric list,
`strconv.Atoi` must succeed. -/
def validateValue (numCols : List String) (col v : String) : Except VErr String :=
  if whiteListMatch v = false then .error .invalidCharacters
  else if col ∈ numCols then
    match parseGoInt v with
    | none => .error .notANumber
    | some _ => .ok v
  else .ok v

/-- Filter conditions: `fmt.Sprintf("%s = $%d", columnName, i+1)` for each
(column, value) pair, with `i` the running index. -/
def filterConditions : List (String × String) → Nat → List String
  | [], _ => []
  | p :: rest, i => (p.1 ++ " = $" ++ natToStr i) :: filterConditions rest (i + 1)

/-- The query and parameter list built by `filterData`. -/
def filterBuild (t : TableInfo) (pairs : List (String × String)) : String × List String :=
  ("SELECT * FROM " ++ t.Name ++ " WHERE " ++
     goJoin " AND " (filterConditions pairs 1) ++ " ORDER BY id",
   pairs.map Prod.snd)

/-- Columns offered for update: every column except `id` (`updateData`). -/
def updatableColumnsOf (t : TableInfo) : List String :=
  t.Columns.filter (fun c => c ≠ "id")

/-- Update placeholders: `fmt.Sprintf("$%d", i+2)` for each id. -/
def updatePlaceholders : List String → Nat → List String
  | [], _ => []
  | _ :: rest, i => ("$" ++ natToStr (i + 2)) :: updatePlaceholders rest (i + 1)

/-- The query and argument list built by `updateData`. -/
def updateBuild (t : TableInfo) (col v : String) (ids : List String) :
    String × List String :=
  if ids.length = 1 then
    ("UPDATE " ++ t.Name ++ " SET " ++ col ++ " = $1 WHERE id = $2",
     [v, ids.getD 0 ""])
  else
    ("UPDATE " ++ t.Name ++ " SET " ++ col ++ " = $1 WHERE id IN (" ++
       goJoin ", " (updatePlaceholders ids 0) ++ ")",
     v :: ids)

/-- Insert columns: every column except index 0 (`table.Columns[1:]`). -/
def insertColumnsOf (t : TableInfo) : List String := t.Columns.drop 1

/-- Insert placeholders: `fmt.Sprintf("$%d", j+1)` for `j` below the column count. -/
def insertPlaceholders : Nat → Nat → List String
  | 0, _ => []
  | n + 1, j => ("$" ++ natToStr (j + 1)) :: insertPlaceholders n (j + 1)

/-- The INSERT statement text built by `insertData` and `insertRelatedData`. -/
def insertQueryText (t : TableInfo) : String :=
  "INSERT INTO " ++ t.Name ++ " (" ++ goJoin ", " (insertColumnsOf t) ++
    ") VALUES (" ++ goJoin ", " (insertPlaceholders (insertColumnsOf t).length 0) ++ ")"

/-- The query and parameter list built by `insertData` for one record. -/
def insertBuild (t : TableInfo) (values : List String) : String × List String :=
  (insertQueryText t, values)

/-- The first related insert: the same INSERT with ` RETURNING id` appended. -/
def insertRelatedFirstBuild (t : TableInfo) (values : List String) :
    String × List String :=
  (insertQueryText t ++ " RETURNING id", values)

/-- The second related insert: a plain INSERT whose parameters include the
returned id for the foreign-key column. -/
def insertRelatedSecondBuild (t : TableInfo) (ps : List Param) :
    String × List Param :=
  (insertQueryText t, ps)

/-- The explicit precedence scan of `insertRelatedData` over the second
table's columns; `some c` is the column on which the Go loop breaks. -/
def findFK (t1Name t2Name : String) : List String → Option String
  | [] => none
  | c :: rest =>
    if (c = "component_id" ∨ c = "category_id" ∨ c = "manufacturer_id") ∧
       ((goContains t2Name "stock" ∧ t1Name = "components" ∧ c = "component_id") ∨
        (goContains t2Name "components" ∧
          ((t1Name = "categories" ∧ c = "category_id") ∨
           (t1Name = "manufacturers" ∧ c = "manufacturer_id"))))
    then some c
    else findFK t1Name t2Name rest

/-- First column that is not `id` — the fallback scan of `insertRelatedData`. -/
def firstNonId : List String → Option String
  | [] => none
  | c :: rest => if c = "id" then firstNonId rest else some c

/-- The resolved foreign-key column: explicit precedence, then the fallback;
the empty string if both scans fail (the Go zero value). -/
def resolveForeignKey (t1Name : String) (t2 : TableInfo) : String :=
  match findFK t1Name t2.Name t2.Columns with
  | some c => c
  | none => (firstNonId t2.Columns).getD ""

/-- Split a relation menu entry on " и " (`strings.Split`). -/
def relationParts (r : String) : List String := goSplitRel r

/-- Table lookup by name over the catalog; the Go zero value if absent. -/
def lookupTable (name : String) : TableInfo :=
  (tables.find? (fun t => t.Name = name)).getD { Name := "", Columns := [] }

/-- The two table names of a relation entry and the resolved foreign key. -/
def resolveForRelation (r : String) : String × String × String :=
  let parts := relationParts r
  let t1 := lookupTable (parts.getD 0 "")
  let t2 := lookupTable (parts.getD 1 "")
  (t1.Name, t2.Name, resolveForeignKey t1.Name t2)

/-- Stringify a scanned cell: SQL NULL (`nil`) renders as the empty string. -/
def cellString : Option String → String
  | none => ""
  | some s => s

/-- Fold one data row into the running column widths: each width becomes the
maximum of itself and the cell byte length (`viewTable` / `filterData`). -/
def updateWidths (ws : List Nat) (row : List String) : List Nat :=
  List.zipWith (fun w s => max w (goLen s)) ws row

/-- Column widths: header byte lengths, then folded over every data row. -/
def computeWidths (headers : List String) (rows : List (List String)) : List Nat :=
  rows.foldl updateWidths (headers.map goLen)

/-- First `n` whole characters fitting in `n` bytes (model of Go `str[:n]`). -/
def takeBytes : List Char → Nat → List Char
  | [], _ => []
  | c :: cs, n => if charSize c ≤ n then c :: takeBytes cs (n - charSize c) else []

/-- The `padRight` helper: truncate at `length` bytes, or pad with spaces. -/
def padRight (str : String) (length : Nat) : String :=
  if length ≤ goLen str then String.mk (takeBytes str.data length)
  else str ++ String.mk (List.replicate (length - goLen str) ' ')

/-- One rendered grid line: cells padded to their widths, joined by " | ". -/
def renderCells (row : List String) (ws : List Nat) : List String :=
  List.zipWith padRight row ws

/-- Header or data line as printed by the viewers. -/
def renderLine (row : List String) (ws : List Nat) : String :=
  goJoin " | " (renderCells row ws)

/-- Divider segments: `width` dash characters per column. -/
def dividerSegments (ws : List Nat) : List String :=
  ws.map (fun w => String.mk (List.replicate w '-'))

/-- The divider line: per-column dash runs joined by "-+-". -/
def dividerLine (ws : List Nat) : String :=
  goJoin "-+-" (dividerSegments ws)

/-- The widths the viewers compute for a grid of nullable cells. -/
def viewWidths (headers : List String) (grid : List (List (Option String))) : List Nat :=
  computeWidths headers (grid.map (fun r => r.map cellString))

/-- Spec-side formulation for the width contract: the largest byte length
among one column's cells (0 for no rows). -/
def colMax (rows : List (List String)) (i : Nat) : Nat :=
  (rows.map (fun r => goLen (r.getD i ""))).foldr max 0

/-- Outcome of one menu operation.  Every constructor corresponds to the Go
handler returning to the menu loop, except `awaitingInput`, which marks the
handler still blocked on operator input inside its own loop. -/
inductive OpOutcome where
  | invalidInput
  | toMenu
  | invalidChars
  | notANumber
  | idNotNumber
  | noUpdatableColumns
  | awaitingInput
  | runQuery (sqlText : String) (ps : List Param)
  | runQueries (qs : List (String × List Param))
deriving DecidableEq, Repr

/-- Read one line from the input script and trim it; end of script reads "". -/
def readLine (inputs : List String) : String × List String :=
  (goTrimSpace (inputs.headD ""), inputs.tail)

/-- The `selectTable` helper: a 1-based table choice, `none` on an invalid
number, an out-of-range number, or the 0 (back to menu) choice. -/
def selectTableChoice (inputs : List String) : Option Nat × List String :=
  let p := readLine inputs
  match parseGoInt p.1 with
  | none => (none, p.2)
  | some n =>
    if n < 0 ∨ (tables.length : Int) < n then (none, p.2)
    else if n = 0 then (none, p.2)
    else (some (n - 1).toNat, p.2)

/-- The `selectColumn` helper over a table's column list. -/
def selectColumnChoice (t : TableInfo) (inputs : List String) :
    Option Nat × List String :=
  let p := readLine inputs
  match parseGoInt p.1 with
  | none => (none, p.2)
  | some n =>
    if n < 0 ∨ (t.Columns.length : Int) < n then (none, p.2)
    else if n = 0 then (none, p.2)
    else (some (n - 1).toNat, p.2)

/-- The per-filter loop of `filterData`: pick a column, read a value, check
the whitelist, and accumulate the (column, value) pair. -/
def filterCollect (t : TableInfo) (acc : List (String × String)) :
    Nat → List String → OpOutcome
  | 0, _ =>
    .runQuery (filterBuild t acc).1 ((filterBuild t acc).2.map Param.strVal)
  | n + 1, inputs =>
    match selectColumnChoice t inputs with
    | (none, _) => .toMenu
    | (some ci, rest) =>
      let columnName := t.Columns.getD ci ""
      let p := readLine rest
      if whiteListMatch p.1 = false then .invalidChars
      else filterCollect t (acc ++ [(columnName, p.1)]) n p.2

/-- The `filterData` handler on an input script. -/
def filterOp (inputs : List String) : OpOutcome :=
  let p := readLine inputs
  match parseGoInt p.1 with
  | none => .invalidInput
  | some cnt =>
    if cnt < 1 then .invalidInput
    else
      match selectTableChoice p.2 with
      | (none, _) => .toMenu
      | (some ti, rest) =>
        filterCollect (tables.getD ti { Name := "", Columns := [] }) [] cnt.toNat rest

/-- The id-reading loop of `updateData`: each id line must pass `strconv.Atoi`;
the first failure aborts (`none`), otherwise the trimmed id strings are kept. -/
def readIds : Nat → List String → Option (List String × List String)
  | 0, inputs => some ([], inputs)
  | n + 1, inputs =>
    let p := readLine inputs
    match parseGoInt p.1 with
    | none => none
    | some _ =>
      match readIds n p.2 with
      | none => none
      | some (ids, rest) => some (p.1 :: ids, rest)

/-- The remainder of `updateData` once the table is chosen: read the ids,
choose a non-id column, read and validate the new value, build the query. -/
def updateWithTable (t : TableInfo) (cnt : Nat) (inputs : List String) : OpOutcome :=
  let updatable := updatableColumnsOf t
  if updatable.isEmpty then .noUpdatableColumns
  else
    match readIds cnt inputs with
    | none => .idNotNumber
    | some (ids, rest) =>
      let p := readLine rest
      match parseGoInt p.1 with
      | none => .invalidInput
      | some c =>
        if c < 0 ∨ (updatable.length : Int) < c then .invalidInput
        else if c = 0 then .toMenu
        else
          let columnName := updatable.getD (c - 1).toNat ""
          let q := readLine p.2
          match validateValue numericColumns columnName q.1 with
          | .error .invalidCharacters => .invalidChars
          | .error .notANumber => .notANumber
          | .ok v =>
            .runQuery (updateBuild t columnName v ids).1
              ((updateBuild t columnName v ids).2.map Param.strVal)

/-- The `updateData` handler on an input script. -/
def updateOp (inputs : List String) : OpOutcome :=
  let p := readLine inputs
  match parseGoInt p.1 with
  | none => .invalidInput
  | some cnt =>
    if cnt < 1 then .invalidInput
    else
      match selectTableChoice p.2 with
      | (none, _) => .toMenu
      | (some ti, rest) =>
        updateWithTable (tables.getD ti { Name := "", Columns := [] }) cnt.toNat rest

/-- The value-reading loop of `insertData`: one validated value per column. -/
def insertReadValues (numCols : List String) :
    List String → List String → Except OpOutcome (List String × List String)
  | [], inputs => .ok ([], inputs)
  | c :: cs, inputs =>
    let p := readLine inputs
    match validateValue numCols c p.1 with
    | .error .invalidCharacters => .error .invalidChars
    | .error .notANumber => .error .notANumber
    | .ok v =>
      match insertReadValues numCols cs p.2 with
      | .error e => .error e
      | .ok (vs, rest) => .ok (v :: vs, rest)

/-- The record loop of `insertData`: each record reads its values and issues
the same INSERT statement with fresh parameters. -/
def insertRecords (t : TableInfo) :
    Nat → List String → List (String × List Param) → OpOutcome
  | 0, _, acc => .runQueries acc
  | n + 1, inputs, acc =>
    match insertReadValues numericColumns (insertColumnsOf t) inputs with
    | .error e => e
    | .ok (vs, rest) =>
      insertRecords t n rest
        (acc ++ [((insertBuild t vs).1, (insertBuild t vs).2.map Param.strVal)])

/-- The `insertData` handler on an input script. -/
def insertOp (inputs : List String) : OpOutcome :=
  let p := readLine inputs
  match parseGoInt p.1 with
  | none => .invalidInput
  | some cnt =>
    if cnt < 1 then .invalidInput
    else
      match selectTableChoice p.2 with
      | (none, _) => .toMenu
      | (some ti, rest) =>
        insertRecords (tables.getD ti { Name := "", Columns := [] }) cnt.toNat rest []

/-- The second-table value loop of `insertRelatedData`: the resolved
foreign-key column is set to the returned id with no prompt; every other
column is prompted and validated against the second-table numeric list. -/
def readValues2 (fk : String) (fkid : Int) :
    List String → List String → Except OpOutcome (List Param × List String)
  | [], inputs => .ok ([], inputs)
  | c :: cs, inputs =>
    if c = fk then
      match readValues2 fk fkid cs inputs with
      | .error e => .error e
      | .ok (ps, rest) => .ok (Param.intVal fkid :: ps, rest)
    else
      match validateValue relSecondNumericColumns c (readLine inputs).1 with
      | .error .invalidCharacters => .error .invalidChars
      | .error .notANumber => .error .notANumber
      | .ok v =>
        match readValues2 fk fkid cs (readLine inputs).2 with
        | .error e => .error e
        | .ok (ps, rest) => .ok (Param.strVal v :: ps, rest)

/-- The record loop of `insertRelatedData`: first insert with RETURNING id,
resolve the foreign key, then the second insert.  `dbIds` supplies the ids
the database returns, one per record. -/
def relatedRecords (t1 t2 : TableInfo) :
    Nat → List Int → List String → List (String × List Param) → OpOutcome
  | 0, _, _, acc => .runQueries acc
  | n + 1, dbIds, inputs, acc =>
    match insertReadValues relFirstNumericColumns (insertColumnsOf t1) inputs with
    | .error e => e
    | .ok (vs1, rest) =>
      let insertedID := dbIds.headD 0
      let fk := resolveForeignKey t1.Name t2
      match readValues2 fk insertedID (insertColumnsOf t2) rest with
      | .error e => e
      | .ok (ps2, rest2) =>
        relatedRecords t1 t2 n dbIds.tail rest2
          (acc ++ [((insertRelatedFirstBuild t1 vs1).1, vs1.map Param.strVal),
                   ((insertRelatedSecondBuild t2 ps2).1, ps2)])

/-- The `insertRelatedData` handler on an input script. -/
def insertRelatedOp (dbIds : List Int) (inputs : List String) : OpOutcome :=
  let p := readLine inputs
  match parseGoInt p.1 with
  | none => .invalidInput
  | some cnt =>
    if cnt < 1 then .invalidInput
    else
      let q := readLine p.2
      match parseGoInt q.1 with
      | none => .invalidInput
      | some choice =>
        if choice < 0 ∨ (relatedTables.length : Int) < choice then .invalidInput
        else if choice = 0 then .toMenu
        else
          let relation := relatedTables.getD (choice - 1).toNat ""
          let parts := relationParts relation
          if parts.length ≠ 2 then .invalidInput
          else
            let t1 := lookupTable (parts.getD 0 "")
            let t2 := lookupTable (parts.getD 1 "")
            relatedRecords t1 t2 cnt.toNat dbIds inputsAfter []
  where
    /-- Lines remaining after the count and relation choice lines. -/
    inputsAfter : List String := (inputs.tail).tail

/-- The `viewTable` handler: its selection loop keeps re-prompting on an
invalid choice (it does not return to the main menu); an exhausted script
leaves it blocked on input. -/
def viewOp : List String → OpOutcome
  | [] => .awaitingInput
  | line :: rest =>
    match parseGoInt (goTrimSpace line) with
    | none => viewOp rest
    | some c =>
      if c < 0 ∨ (tables.length : Int) < c then viewOp rest
      else if c = 0 then .toMenu
      else
        .runQuery
          ("SELECT * FROM " ++
             (tables.getD (c - 1).toNat { Name := "", Columns := [] }).Name ++
             " ORDER BY id") []

/-- One iteration of `mainMenu`: parse the choice; 0 exits the process, 1–5
run a handler and loop, anything else re-prompts.  The Bool is true exactly
when the process terminates. -/
def menuStep (dbIds : List Int) (inputs : List String) : Bool × Option OpOutcome :=
  let p := readLine inputs
  match parseGoInt p.1 with
  | none => (false, none)
  | some c =>
    if c = 0 then (true, none)
    else if c = 1 then (false, some (viewOp p.2))
    else if c = 2 then (false, some (filterOp p.2))
    else if c = 3 then (false, some (updateOp p.2))
    else if c = 4 then (false, some (insertOp p.2))
    else if c = 5 then (false, some (insertRelatedOp dbIds p.2))
    else (false, none)

/-! ### Supporting lemmas -/

theorem string_data_append (a b : String) : (a ++ b).data = a.data ++ b.data := rfl

theorem dollarCount_append (a b : String) :
    dollarCount (a ++ b) = dollarCount a + dollarCount b := by
  show (a ++ b).data.count '$' = a.data.count '$' + b.data.count '$'
  rw [string_data_append, List.count_append]

theorem digitChar_ne_dollar (m : Nat) : digitChar m ≠ '$' := by
  unfold digitChar
  split <;> decide

theorem dollar_not_mem_natDigitsAux (fuel : Nat) :
    ∀ n, '$' ∉ natDigitsAux fuel n := by
  induction fuel with
  | zero => intro n; simp [natDigitsAux]
  | succ f ih =>
    intro n
    cases n with
    | zero => simp [natDigitsAux]
    | succ m =>
      rw [natDigitsAux]
      intro hmem
      rcases List.mem_cons.mp hmem with h | h
      · exact digitChar_ne_dollar _ h.symm
      · exact ih ((m + 1) / 10) h

theorem dollarCount_natToStr (n : Nat) : dollarCount (natToStr n) = 0 := by
  unfold natToStr
  split
  · decide
  · show (String.mk (natDigitsAux n n).reverse).data.count '$' = 0
    rw [List.count_eq_zero]
    intro hmem
    exact dollar_not_mem_natDigitsAux n n (List.mem_reverse.mp hmem)

theorem dollarCount_goJoin (sep : String) (h : dollarCount sep = 0)
    (l : List String) : dollarCount (goJoin sep l) = (l.map dollarCount).sum := by
  induction l with
  | nil => simp [goJoin, dollarCount]
  | cons x xs ih =>
    cases xs with
    | nil => simp [goJoin]
    | cons y ys =>
      show dollarCount (x ++ sep ++ goJoin sep (y :: ys)) = _
      rw [dollarCount_append, dollarCount_append, h, ih]
      simp

theorem goLen_append (a b : String) : goLen (a ++ b) = goLen a + goLen b := by
  show ((a ++ b).data.map charSize).sum = _
  rw [string_data_append, List.map_append, List.sum_append]
  rfl

theorem goLen_spaces (k : Nat) : goLen (String.mk (List.replicate k ' ')) = k := by
  show ((List.replicate k ' ').map charSize).sum = k
  rw [List.map_replicate]
  simp [charSize]

theorem tables_dollarFree :
    ∀ t ∈ tables, dollarCount t.Name = 0 ∧ ∀ c ∈ t.Columns, dollarCount c = 0 := by
  intro t ht
  fin_cases ht <;> exact ⟨by decide, by decide⟩

theorem filterConditions_length (pairs : List (String × String)) :
    ∀ i, (filterConditions pairs i).length = pairs.length := by
  induction pairs with
  | nil => intro i; rfl
  | cons p rest ih => intro i; simpa [filterConditions] using ih (i + 1)

theorem filterConditions_getD (pairs : List (String × String)) :
    ∀ i k, k < pairs.length →
      (filterConditions pairs i).getD k "" =
        (pairs.getD k ("", "")).1 ++ " = $" ++ natToStr (i + k) := by
  induction pairs with
  | nil => intro i k hk; simp at hk
  | cons p rest ih =>
    intro i k hk
    cases k with
    | zero => simp [filterConditions]
    | succ k =>
      have hk' : k < rest.length := by simpa using hk
      have := ih (i + 1) k hk'
      simpa [filterConditions, Nat.add_assoc, Nat.add_comm 1 k] using this

theorem filterConditions_fst (pairs pairs' : List (String × String)) :
    pairs.map Prod.fst = pairs'.map Prod.fst →
      ∀ i, filterConditions pairs i = filterConditions pairs' i := by
  induction pairs generalizing pairs' with
  | nil =>
    intro h i
    cases pairs' with
    | nil => rfl
    | cons q qs => simp at h
  | cons p rest ih =>
    intro h i
    cases pairs' with
    | nil => simp at h
    | cons q qs =>
      simp only [List.map_cons, List.cons.injEq] at h
      simp [filterConditions, h.1, ih qs h.2 (i + 1)]

theorem filterConditions_dollar (pairs : List (String × String)) :
    (∀ p ∈ pairs, dollarCount p.1 = 0) →
      ∀ i, ((filterConditions pairs i).map dollarCount).sum = pairs.length := by
  induction pairs with
  | nil => intro _ i; rfl
  | cons p rest ih =>
    intro h i
    have hp : dollarCount p.1 = 0 := h p (List.mem_cons_self p rest)
    have hrest : ∀ q ∈ rest, dollarCount q.1 = 0 :=
      fun q hq => h q (List.mem_cons_of_mem p hq)
    have heq : dollarCount " = $" = 1 := by decide
    simp [filterConditions, dollarCount_append, hp, dollarCount_natToStr, heq,
      ih hrest (i + 1), Nat.add_comm]

theorem updatePlaceholders_length (ids : List String) :
    ∀ i, (updatePlaceholders ids i).length = ids.length := by
  induction ids with
  | nil => intro i; rfl
  | cons x rest ih => intro i; simpa [updatePlaceholders] using ih (i + 1)

theorem updatePlaceholders_getD (ids : List String) :
    ∀ i k, k < ids.length →
      (updatePlaceholders ids i).getD k "" = "$" ++ natToStr (i + k + 2) := by
  induction ids with
  | nil => intro i k hk; simp at hk
  | cons x rest ih =>
    intro i k hk
    cases k with
    | zero => simp [updatePlaceholders]
    | succ k =>
      have hk' : k < rest.length := by simpa using hk
      have := ih (i + 1) k hk'
      simpa [updatePlaceholders, Nat.add_assoc, Nat.add_comm 1 k] using this

theorem updatePlaceholders_dollar (ids : List String) :
    ∀ i, ((updatePlaceholders ids i).map dollarCount).sum = ids.length := by
  induction ids with
  | nil => intro i; rfl
  | cons x rest ih =>
    intro i
    have heq : dollarCount "$" = 1 := by decide
    simp [updatePlaceholders, dollarCount_append, dollarCount_natToStr, heq,
      ih (i + 1), Nat.add_comm]

theorem updatePlaceholders_congr (ids ids' : List String) :
    ids.length = ids'.length →
      ∀ i, updatePlaceholders ids i = updatePlaceholders ids' i := by
  induction ids generalizing ids' with
  | nil =>
    intro h i
    cases ids' with
    | nil => rfl
    | cons y ys => simp at h
  | cons x rest ih =>
    intro h i
    cases ids' with
    | nil => simp at h
    | cons y ys =>
      simp only [List.length_cons, Nat.succ.injEq] at h
      simp [updatePlaceholders, ih ys h (i + 1)]

theorem insertPlaceholders_length (n : Nat) :
    ∀ j, (insertPlaceholders n j).length = n := by
  induction n with
  | zero => intro j; rfl
  | succ m ih => intro j; simpa [insertPlaceholders] using ih (j + 1)

theorem insertPlaceholders_getD (n : Nat) :
    ∀ j k, k < n →
      (insertPlaceholders n j).getD k "" = "$" ++ natToStr (j + k + 1) := by
  induction n with
  | zero => intro j k hk; simp at hk
  | succ m ih =>
    intro j k hk
    cases k with
    | zero => simp [insertPlaceholders]
    | succ k =>
      have hk' : k < m := by omega
      have := ih (j + 1) k hk'
      simpa [insertPlaceholders, Nat.add_assoc, Nat.add_comm 1 k] using this

theorem insertPlaceholders_dollar (n : Nat) :
    ∀ j, ((insertPlaceholders n j).map dollarCount).sum = n := by
  induction n with
  | zero => intro j; rfl
  | succ m ih =>
    intro j
    have heq : dollarCount "$" = 1 := by decide
    simp [insertPlaceholders, dollarCount_append, dollarCount_natToStr, heq,
      ih (j + 1), Nat.add_comm]

/-- Per-table dollar count of the INSERT statement text: one placeholder per
non-id column, and no `$` from catalog names. -/
theorem dollarCount_insertQueryText :
    ∀ t ∈ tables, dollarCount (insertQueryText t) = (insertColumnsOf t).length := by
  intro t ht
  have hcols : ∀ c ∈ insertColumnsOf t, dollarCount c = 0 := by
    intro c hc
    exact (tables_dollarFree t ht).2 c (List.mem_of_mem_drop hc)
  have hjoin : dollarCount (goJoin ", " (insertColumnsOf t)) = 0 := by
    rw [dollarCount_goJoin ", " (by decide)]
    exact List.sum_eq_zero (by simpa using hcols)
  have h1 : dollarCount "INSERT INTO " = 0 := by decide
  have h2 : dollarCount " (" = 0 := by decide
  have h3 : dollarCount ") VALUES (" = 0 := by decide
  have h4 : dollarCount ")" = 0 := by decide
  have h5 : dollarCount ", " = 0 := by decide
  simp [insertQueryText, dollarCount_append, h1, h2, h3, h4, hjoin,
    (tables_dollarFree t ht).1, dollarCount_goJoin ", " h5,
    insertPlaceholders_dollar (insertColumnsOf t).length 0]

/-- C3: the Relation Resolver, applied to each of the three configured
relation pairs, returns `component_id` for (components, stock),
`category_id` for (categories, components), and `manufacturer_id` for
(manufacturers, components). -/
theorem relation_resolver_on_catalog :
    resolveForRelation (relatedTables.getD 0 "") =
      ("components", "stock", "component_id") ∧
    resolveForRelation (relatedTables.getD 1 "") =
      ("categories", "components", "category_id") ∧
    resolveForRelation (relatedTables.getD 2 "") =
      ("manufacturers", "components", "manufacturer_id") := by
  refine ⟨?_, ?_, ?_⟩ <;> decide

/-- C9: for every configured relation pair, the explicit precedence scan of
the resolver already finds a foreign-key column, so the first-non-id
fallback branch of `resolveForeignKey` is never taken on the catalog. -/
theorem resolver_explicit_always_matches :
    (relatedTables.all (fun r =>
      ((findFK ((relationParts r).getD 0 "")
          (lookupTable ((relationParts r).getD 1 "")).Name
          (lookupTable ((relationParts r).getD 1 "")).Columns).isSome))) = true := by
  decide

/-- C6: a filter request over N validated (column, value) pairs builds
`SELECT * FROM <table> WHERE <col1> = $1 AND ... AND <colN> = $N ORDER BY id`
with the conditions joined by " AND ", the k-th condition naming the k-th
chosen column with placeholder number k+1, and the parameters in pair order. -/
theorem filter_query_shape (t : TableInfo) (pairs : List (String × String))
    (_hne : pairs ≠ []) :
    filterBuild t pairs =
      ("SELECT * FROM " ++ t.Name ++ " WHERE " ++
         goJoin " AND " (filterConditions pairs 1) ++ " ORDER BY id",
       pairs.map Prod.snd) ∧
    (filterConditions pairs 1).length = pairs.length ∧
    (∀ k, k < pairs.length →
      (filterConditions pairs 1).getD k "" =
        (pairs.getD k ("", "")).1 ++ " = $" ++ natToStr (k + 1)) := by
  refine ⟨rfl, filterConditions_length pairs 1, ?_⟩
  intro k hk
  rw [filterConditions_getD pairs 1 k hk, Nat.add_comm]

/-- Witness for C6: a concrete two-condition filter; its second condition is
exactly `price = $2`. -/
theorem filter_query_shape_witness :
    (filterConditions [("name", "x"), ("price", "5")] 1).getD 1 "" =
      "price" ++ " = $" ++ natToStr 2 :=
  (filter_query_shape (lookupTable "components") [("name", "x"), ("price", "5")]
    (by decide)).2.2 1 (by decide)

/-- C5: a single-id update builds `UPDATE <t> SET <col> = $1 WHERE id = $2`
with parameters [value, id]; a k-id update (k > 1) builds
`UPDATE <t> SET <col> = $1 WHERE id IN ($2, ..., $(k+1))` with parameters
[value, id1, ..., idk]; and the offered target columns never include `id`. -/
theorem update_query_shape (t : TableInfo) (col v : String) (ids : List String) :
    (ids.length = 1 →
      updateBuild t col v ids =
        ("UPDATE " ++ t.Name ++ " SET " ++ col ++ " = $1 WHERE id = $2",
         v :: ids)) ∧
    (1 < ids.length →
      updateBuild t col v ids =
        ("UPDATE " ++ t.Name ++ " SET " ++ col ++ " = $1 WHERE id IN (" ++
           goJoin ", " (updatePlaceholders ids 0) ++ ")", v :: ids) ∧
      (updatePlaceholders ids 0).length = ids.length ∧
      (∀ k, k < ids.length →
        (updatePlaceholders ids 0).getD k "" = "$" ++ natToStr (k + 2))) ∧
    (∀ c ∈ updatableColumnsOf t, c ≠ "id") := by
  refine ⟨?_, ?_, ?_⟩
  · intro h1
    obtain ⟨x, hx⟩ := List.length_eq_one.mp h1
    subst hx
    simp [updateBuild]
  · intro hgt
    have hne : ¬ ids.length = 1 := by omega
    refine ⟨by simp [updateBuild, hne], updatePlaceholders_length ids 0, ?_⟩
    intro k hk
    rw [updatePlaceholders_getD ids 0 k hk]
    have h0 : 0 + k + 2 = k + 2 := by omega
    rw [h0]
  · intro c hc
    exact of_decide_eq_true (List.mem_filter.mp hc).2

/-- Witness for C5: a concrete two-id update produces the IN form with
parameters [value, id1, id2], and its second placeholder is `$3`. -/
theorem update_query_shape_witness :
    updateBuild (lookupTable "stock") "quantity" "9" ["3", "4"] =
      ("UPDATE " ++ "stock" ++ " SET " ++ "quantity" ++ " = $1 WHERE id IN (" ++
         goJoin ", " (updatePlaceholders ["3", "4"] 0) ++ ")",
       ["9", "3", "4"]) ∧
    (updatePlaceholders ["3", "4"] 0).getD 1 "" = "$" ++ natToStr 3 := by
  have h := update_query_shape (lookupTable "stock") "quantity" "9" ["3", "4"]
  exact ⟨(h.2.1 (by decide)).1, (h.2.1 (by decide)).2.2 1 (by decide)⟩

/-- C1: for every operation kind, the SQL text depends only on the catalog
table and its column choices (never on operator values), the parameter list
is exactly the ordered operator values, and the number of `$` placeholders
in the text equals the parameter count. -/
theorem builder_injection_safety :
    ∀ t ∈ tables,
    (∀ pairs : List (String × String), pairs ≠ [] →
        (∀ p ∈ pairs, p.1 ∈ t.Columns) →
      (filterBuild t pairs).2 = pairs.map Prod.snd ∧
      dollarCount (filterBuild t pairs).1 = ((filterBuild t pairs).2).length ∧
      (∀ pairs' : List (String × String),
        pairs.map Prod.fst = pairs'.map Prod.fst →
          (filterBuild t pairs).1 = (filterBuild t pairs').1)) ∧
    (∀ (col v : String) (ids : List String), col ∈ t.Columns → ids ≠ [] →
      (updateBuild t col v ids).2 = v :: ids ∧
      dollarCount (updateBuild t col v ids).1 = 1 + ids.length ∧
      (∀ (v' : String) (ids' : List String), ids.length = ids'.length →
        (updateBuild t col v ids).1 = (updateBuild t col v' ids').1)) ∧
    (∀ values : List String, values.length = (insertColumnsOf t).length →
      (insertBuild t values).2 = values ∧
      dollarCount (insertBuild t values).1 = values.length ∧
      (∀ values' : List String,
        (insertBuild t values).1 = (insertBuild t values').1)) ∧
    (∀ values : List String, values.length = (insertColumnsOf t).length →
      (insertRelatedFirstBuild t values).2 = values ∧
      dollarCount (insertRelatedFirstBuild t values).1 = values.length ∧
      (∀ values' : List String,
        (insertRelatedFirstBuild t values).1 = (insertRelatedFirstBuild t values').1)) ∧
    (∀ ps : List Param, ps.length = (insertColumnsOf t).length →
      (insertRelatedSecondBuild t ps).2 = ps ∧
      dollarCount (insertRelatedSecondBuild t ps).1 = ps.length ∧
      (∀ ps' : List Param,
        (insertRelatedSecondBuild t ps).1 = (insertRelatedSecondBuild t ps').1)) := by
  intro t ht
  have hname := (tables_dollarFree t ht).1
  refine ⟨?_, ?_, ?_, ?_, ?_⟩
  · intro pairs _ hmem
    have hcols : ∀ p ∈ pairs, dollarCount p.1 = 0 :=
      fun p hp => (tables_dollarFree t ht).2 p.1 (hmem p hp)
    refine ⟨rfl, ?_, ?_⟩
    · have h1 : dollarCount "SELECT * FROM " = 0 := by decide
      have h2 : dollarCount " WHERE " = 0 := by decide
      have h3 : dollarCount " ORDER BY id" = 0 := by decide
      simp [filterBuild, dollarCount_append, h1, h2, h3, hname,
        dollarCount_goJoin " AND " (by decide),
        filterConditions_dollar pairs hcols 1]
    · intro pairs' hfst
      simp [filterBuild, filterConditions_fst pairs pairs' hfst 1]
  · intro col v ids hcol _
    have hcolz : dollarCount col = 0 := (tables_dollarFree t ht).2 col hcol
    by_cases h1 : ids.length = 1
    · obtain ⟨x, hx⟩ := List.length_eq_one.mp h1
      subst hx
      refine ⟨by simp [updateBuild], ?_, ?_⟩
      · have hu : dollarCount "UPDATE " = 0 := by decide
        have hs : dollarCount " SET " = 0 := by decide
        have ht2 : dollarCount " = $1 WHERE id = $2" = 2 := by decide
        simp [updateBuild, dollarCount_append, hu, hs, ht2, hname, hcolz]
      · intro v' ids' hlen
        obtain ⟨y, hy⟩ := List.length_eq_one.mp hlen.symm
        subst hy
        simp [updateBuild]
    · refine ⟨by simp [updateBuild, h1], ?_, ?_⟩
      · have hu : dollarCount "UPDATE " = 0 := by decide
        have hs : dollarCount " SET " = 0 := by decide
        have hin : dollarCount " = $1 WHERE id IN (" = 1 := by decide
        have hcl : dollarCount ")" = 0 := by decide
        simp [updateBuild, h1, dollarCount_append, hu, hs, hin, hcl, hname,
          hcolz, dollarCount_goJoin ", " (by decide),
          updatePlaceholders_dollar ids 0, Nat.add_comm]
      · intro v' ids' hlen
        have h1' : ¬ ids'.length = 1 := by omega
        simp [updateBuild, h1, h1', updatePlaceholders_congr ids ids' hlen 0]
  · intro values hlen
    exact ⟨rfl, by rw [hlen]; exact dollarCount_insertQueryText t ht, fun _ => rfl⟩
  · intro values hlen
    refine ⟨rfl, ?_, fun _ => rfl⟩
    have hr : dollarCount " RETURNING id" = 0 := by decide
    show dollarCount (insertQueryText t ++ " RETURNING id") = values.length
    rw [dollarCount_append, hr, hlen, dollarCount_insertQueryText t ht]
    omega
  · intro ps hlen
    exact ⟨rfl, by rw [hlen]; exact dollarCount_insertQueryText t ht, fun _ => rfl⟩

/-- Witness for C1: concrete placeholder and parameter counts for a filter,
an update, and an insert on catalog tables. -/
theorem builder_injection_safety_witness :
    dollarCount (filterBuild (lookupTable "components") [("price", "5")]).1 = 1 ∧
    dollarCount (updateBuild (lookupTable "components") "price" "9" ["3", "4"]).1 = 3 ∧
    dollarCount (insertBuild (lookupTable "categories") ["n", "d"]).1 = 2 := by
  have hc := builder_injection_safety (lookupTable "components") (by decide)
  have hg := builder_injection_safety (lookupTable "categories") (by decide)
  exact ⟨(hc.1 [("price", "5")] (by decide) (by decide)).2.1,
    (hc.2.1 "price" "9" ["3", "4"] (by decide) (by decide)).2.1,
    (hg.2.2.1 ["n", "d"] (by decide)).2.1⟩

/-- Helper: once the whitelist passes, validation fails with NotANumber
exactly when the column is in the handler's numeric list and the value does
not parse as an integer; otherwise the value is accepted unchanged. -/
theorem validateValue_spec (numCols : List String) (col v : String)
    (hw : whiteListMatch v = true) :
    (validateValue numCols col v = Except.error VErr.notANumber ↔
      col ∈ numCols ∧ parseGoInt v = none) ∧
    (validateValue numCols col v = Except.ok v ↔
      ¬(col ∈ numCols ∧ parseGoInt v = none)) := by
  have hw' : ¬ whiteListMatch v = false := by simp [hw]
  by_cases hc : col ∈ numCols
  · cases hp : parseGoInt v <;> simp [validateValue, hw', hc, hp]
  · simp [validateValue, hw', hc]

/-- C2 counterexample: the filter operation applies no numeric check, so the
non-integer value "abc" for the numeric column `price` of `components` is
accepted and bound as a parameter instead of being rejected with a
NotANumber error (script: one filter, table choice 3, column choice 6). -/
theorem filter_accepts_nonnumeric_price :
    parseGoInt "abc" = none ∧
    filterOp ["1", "3", "6", "abc"] =
      OpOutcome.runQuery "SELECT * FROM components WHERE price = $1 ORDER BY id"
        [Param.strVal "abc"] := by
  exact ⟨by decide, by decide⟩

/-- C2 (amended): update and insert check all six numeric column names; the
first related insert checks only {price, founded_year, category_id,
manufacturer_id}; the second related insert checks only {quantity, price};
rejection is NotANumber exactly for a listed column whose value does not
parse; the filter operation applies no numeric check at all. -/
theorem numeric_validation_per_operation (col v : String)
    (hw : whiteListMatch v = true) :
    (validateValue numericColumns col v = Except.error VErr.notANumber ↔
      col ∈ numericColumns ∧ parseGoInt v = none) ∧
    (validateValue relFirstNumericColumns col v = Except.error VErr.notANumber ↔
      col ∈ relFirstNumericColumns ∧ parseGoInt v = none) ∧
    (validateValue relSecondNumericColumns col v = Except.error VErr.notANumber ↔
      col ∈ relSecondNumericColumns ∧ parseGoInt v = none) ∧
    (validateValue numericColumns col v = Except.ok v ↔
      ¬(col ∈ numericColumns ∧ parseGoInt v = none)) :=
  ⟨(validateValue_spec numericColumns col v hw).1,
   (validateValue_spec relFirstNumericColumns col v hw).1,
   (validateValue_spec relSecondNumericColumns col v hw).1,
   (validateValue_spec numericColumns col v hw).2⟩

/-- Witness for the amended C2: `manufacturer_id` with the non-integer value
"abc" is rejected by the update/insert check but accepted by the
second-related-insert check. -/
theorem numeric_validation_per_operation_witness :
    validateValue numericColumns "manufacturer_id" "abc" =
      Except.error VErr.notANumber ∧
    validateValue relSecondNumericColumns "manufacturer_id" "abc" =
      Except.ok "abc" := by
  have h := numeric_validation_per_operation "manufacturer_id" "abc" (by decide)
  exact ⟨h.1.mpr (by decide), rfl⟩

/-- C10: in the update operation, when any typed row identifier fails
integer parsing, the handler aborts with the id error before building any
SQL: the outcome is `idNotNumber` and never a query execution. -/
theorem update_aborts_on_bad_id (t : TableInfo) (cnt : Nat) (inputs : List String)
    (hcols : updatableColumnsOf t ≠ [])
    (hbad : readIds cnt inputs = none) :
    updateWithTable t cnt inputs = OpOutcome.idNotNumber ∧
    ∀ q ps, updateWithTable t cnt inputs ≠ OpOutcome.runQuery q ps := by
  obtain ⟨c, cs, hcc⟩ : ∃ c cs, updatableColumnsOf t = c :: cs := by
    cases h : updatableColumnsOf t with
    | nil => exact absurd h hcols
    | cons c cs => exact ⟨c, cs, rfl⟩
  have h1 : updateWithTable t cnt inputs = OpOutcome.idNotNumber := by
    simp [updateWithTable, hcc, hbad, List.isEmpty]
  refine ⟨h1, fun q ps h => ?_⟩
  rw [h1] at h
  exact absurd h (by simp)

/-- Witness for C10: one requested id, the non-numeric id line "xx". -/
theorem update_aborts_on_bad_id_witness :
    updateWithTable (lookupTable "stock") 1 ["xx"] = OpOutcome.idNotNumber ∧
    updateWithTable (lookupTable "stock") 1 ["xx"] ≠ OpOutcome.runQuery "" [] := by
  have h := update_aborts_on_bad_id (lookupTable "stock") 1 ["xx"]
    (by decide) (by decide)
  exact ⟨h.1, h.2 "" []⟩

/-- C8 counterexample: operation 1 (table view) with the invalid selection
"7" (the catalog has 4 tables) does not return control to the main menu:
the view's own selection loop keeps awaiting operator input. -/
theorem view_invalid_choice_stays_in_view :
    (tables.length : Int) < 7 ∧
    viewOp ["7"] = OpOutcome.awaitingInput ∧
    viewOp ["7"] ≠ OpOutcome.toMenu := by
  refine ⟨by decide, by decide, by decide⟩

/-- C8 (amended): one menu iteration terminates the process exactly when the
trimmed choice line parses as 0 — every handler outcome, validation errors
included, continues the loop — while the table-view selection loop
re-prompts within the operation on an invalid choice instead of returning
to the menu. -/
theorem menu_exit_only_on_zero (dbIds : List Int) (inputs : List String) :
    ((menuStep dbIds inputs).1 = true ↔
      parseGoInt (readLine inputs).1 = some 0) ∧
    (∀ line rest, parseGoInt (goTrimSpace line) = none →
      viewOp (line :: rest) = viewOp rest) := by
  constructor
  · unfold menuStep
    cases hp : parseGoInt (readLine inputs).1 with
    | none => simp [hp]
    | some c =>
      simp only [hp]
      by_cases hc : c = 0
      · subst hc; simp
      · simp only [if_neg hc]
        constructor
        · intro hcontra
          exfalso
          split_ifs at hcontra
        · intro hcontra
          exact absurd (Option.some.inj hcontra) hc
  · intro line rest h
    simp [viewOp, h]

/-- Witness for the amended C8: choice "0" exits; an unparseable view
selection makes the view loop consume the line and continue. -/
theorem menu_exit_only_on_zero_witness :
    (menuStep [] ["0"]).1 = true ∧ viewOp ["x", "0"] = viewOp ["0"] := by
  exact ⟨(menu_exit_only_on_zero [] ["0"]).1.mpr (by decide),
    (menu_exit_only_on_zero [] []).2 "x" ["0"] (by decide)⟩

/-- C4: the first related insert appends RETURNING id to the plain INSERT,
and the second-table value loop sets the resolved foreign-key column to the
returned id with no prompt, prompts for every other non-id column (one
input line each, kept as string parameters), and consumes exactly one line
per non-foreign-key column. -/
theorem related_insert_chains_id :
    (∀ (t : TableInfo) (vs : List String),
      (insertRelatedFirstBuild t vs).1 = (insertBuild t vs).1 ++ " RETURNING id") ∧
    (∀ (fk : String) (fkid : Int) (cols inputs : List String)
        (ps : List Param) (rest : List String),
      readValues2 fk fkid cols inputs = Except.ok (ps, rest) →
      ps.length = cols.length ∧
      (∀ i, i < cols.length → cols.getD i "" = fk →
        ps.getD i (Param.strVal "") = Param.intVal fkid) ∧
      (∀ i, i < cols.length → cols.getD i "" ≠ fk →
        (ps.getD i (Param.strVal "")).isStr = true) ∧
      inputs.length = (cols.filter (fun c => c ≠ fk)).length + rest.length) := by
  refine ⟨fun t vs => rfl, ?_⟩
  intro fk fkid cols
  induction cols with
  | nil =>
    intro inputs ps rest h
    simp only [readValues2, Except.ok.injEq, Prod.mk.injEq] at h
    obtain ⟨hps, hrest⟩ := h
    subst hps
    subst hrest
    exact ⟨rfl, by simp, by simp, by simp⟩
  | cons c cs ih =>
    intro inputs ps rest h
    by_cases hck : c = fk
    · rw [readValues2, if_pos hck] at h
      cases hin : readValues2 fk fkid cs inputs with
      | error e => rw [hin] at h; exact absurd h (by simp)
      | ok pr =>
        obtain ⟨ps', rest'⟩ := pr
        rw [hin] at h
        simp only [Except.ok.injEq, Prod.mk.injEq] at h
        obtain ⟨hps, hrest⟩ := h
        subst hps
        subst hrest
        obtain ⟨hlen, hfki, hstri, hcount⟩ := ih inputs ps' rest' hin
        refine ⟨by simp [hlen], ?_, ?_, ?_⟩
        · intro i hi hieq
          cases i with
          | zero => simp
          | succ j =>
            simp only [List.getD_cons_succ] at hieq ⊢
            exact hfki j (by simpa using hi) hieq
        · intro i hi hine
          cases i with
          | zero => simp only [List.getD_cons_zero] at hine; exact absurd hck hine
          | succ j =>
            simp only [List.getD_cons_succ] at hine ⊢
            exact hstri j (by simpa using hi) hine
        · simpa [List.filter_cons, hck] using hcount
    · rw [readValues2, if_neg hck] at h
      cases hval : validateValue relSecondNumericColumns c (readLine inputs).1 with
      | error e =>
        cases e <;> rw [hval] at h <;> exact absurd h (by simp)
      | ok v =>
        rw [hval] at h
        cases hin : readValues2 fk fkid cs (readLine inputs).2 with
        | error e => rw [hin] at h; exact absurd h (by simp)
        | ok pr =>
          obtain ⟨ps', rest'⟩ := pr
          rw [hin] at h
          simp only [Except.ok.injEq, Prod.mk.injEq] at h
          obtain ⟨hps, hrest⟩ := h
          subst hps
          subst hrest
          obtain ⟨hlen, hfki, hstri, hcount⟩ := ih (readLine inputs).2 ps' rest' hin
          cases inputs with
          | nil =>
            exfalso
            have hval0 : validateValue relSecondNumericColumns c
                (readLine ([] : List String)).1 =
                Except.error VErr.invalidCharacters := rfl
            rw [hval0] at hval
            exact absurd hval (by simp)
          | cons a as =>
            refine ⟨by simp [hlen], ?_, ?_, ?_⟩
            · intro i hi hieq
              cases i with
              | zero => simp only [List.getD_cons_zero] at hieq; exact absurd hieq hck
              | succ j =>
                simp only [List.getD_cons_succ] at hieq ⊢
                exact hfki j (by simpa using hi) hieq
            · intro i hi hine
              cases i with
              | zero => simp [Param.isStr]
              | succ j =>
                simp only [List.getD_cons_succ] at hine ⊢
                exact hstri j (by simpa using hi) hine
            · have hcount' : as.length =
                  (cs.filter (fun x => decide (x ≠ fk))).length + rest'.length := hcount
              simp only [List.length_cons]
              simp [List.filter_cons, hck] at hcount' ⊢
              omega

/-- Witness for C4: the stock insert after a components insert returning id
7: the parameter list starts with the integer id and has one entry per
non-id column of stock. -/
theorem related_insert_chains_id_witness :
    (([Param.intVal 7, Param.strVal "5", Param.strVal "A1"] : List Param).length =
      (insertColumnsOf (lookupTable "stock")).length) ∧
    ([Param.intVal 7, Param.strVal "5", Param.strVal "A1"] : List Param).getD 0
      (Param.strVal "") = Param.intVal 7 := by
  have h := related_insert_chains_id.2 "component_id" 7
    (insertColumnsOf (lookupTable "stock")) ["5", "A1"]
    [Param.intVal 7, Param.strVal "5", Param.strVal "A1"] [] rfl
  exact ⟨h.1, h.2.1 0 (by decide) (by decide)⟩

theorem goLen_replicate_one (c : Char) (h : charSize c = 1) (k : Nat) :
    goLen (String.mk (List.replicate k c)) = k := by
  show ((List.replicate k c).map charSize).sum = k
  rw [List.map_replicate, h]
  simp

theorem updateWidths_length (ws : List Nat) (row : List String)
    (h : row.length = ws.length) : (updateWidths ws row).length = ws.length := by
  simp [updateWidths, h]

theorem getD_updateWidths :
    ∀ (ws : List Nat) (row : List String) (i : Nat), row.length = ws.length →
      i < ws.length →
      (updateWidths ws row).getD i 0 = max (ws.getD i 0) (goLen (row.getD i "")) := by
  intro ws
  induction ws with
  | nil => intro row i _ hi; simp at hi
  | cons w ws ih =>
    intro row i hlen hi
    cases row with
    | nil => simp at hlen
    | cons s row =>
      cases i with
      | zero => simp [updateWidths]
      | succ j =>
        have hlen' : row.length = ws.length := by simpa using hlen
        have hj : j < ws.length := by simpa using hi
        simpa [updateWidths] using ih row j hlen' hj

theorem computeWidths_length (rows : List (List String)) :
    ∀ init : List Nat, (∀ r ∈ rows, r.length = init.length) →
      (rows.foldl updateWidths init).length = init.length := by
  induction rows with
  | nil => intro init _; rfl
  | cons r rs ih =>
    intro init h
    have hr : r.length = init.length := h r (List.mem_cons_self r rs)
    have hstep : (updateWidths init r).length = init.length :=
      updateWidths_length init r hr
    have hrs : ∀ r' ∈ rs, r'.length = (updateWidths init r).length := by
      intro r' hr'
      rw [hstep]
      exact h r' (List.mem_cons_of_mem r hr')
    calc (List.foldl updateWidths (updateWidths init r) rs).length
        = (updateWidths init r).length := ih (updateWidths init r) hrs
      _ = init.length := hstep

theorem computeWidths_getD (rows : List (List String)) :
    ∀ init : List Nat, (∀ r ∈ rows, r.length = init.length) →
      ∀ i, i < init.length →
      (rows.foldl updateWidths init).getD i 0 = max (init.getD i 0) (colMax rows i) := by
  induction rows with
  | nil => intro init _ i _; simp [colMax]
  | cons r rs ih =>
    intro init h i hi
    have hr : r.length = init.length := h r (List.mem_cons_self r rs)
    have hstep : (updateWidths init r).length = init.length :=
      updateWidths_length init r hr
    have hrs : ∀ r' ∈ rs, r'.length = (updateWidths init r).length := by
      intro r' hr'
      rw [hstep]
      exact h r' (List.mem_cons_of_mem r hr')
    have hi' : i < (updateWidths init r).length := by rw [hstep]; exact hi
    calc (List.foldl updateWidths (updateWidths init r) rs).getD i 0
        = max ((updateWidths init r).getD i 0) (colMax rs i) :=
          ih (updateWidths init r) hrs i hi'
      _ = max (max (init.getD i 0) (goLen (r.getD i ""))) (colMax rs i) := by
          rw [getD_updateWidths init r i hr hi]
      _ = max (init.getD i 0) (max (goLen (r.getD i "")) (colMax rs i)) :=
          Nat.max_assoc _ _ _
      _ = max (init.getD i 0) (colMax (r :: rs) i) := by simp [colMax]

theorem colMax_ge (rows : List (List String)) (r : List String) (i : Nat)
    (hr : r ∈ rows) : goLen (r.getD i "") ≤ colMax rows i := by
  induction rows with
  | nil => simp at hr
  | cons x xs ih =>
    rcases List.mem_cons.mp hr with h | h
    · subst h
      exact le_max_left _ _
    · exact le_trans (ih h) (le_max_right _ _)

theorem takeBytes_full : ∀ l : List Char, takeBytes l ((l.map charSize).sum) = l := by
  intro l
  induction l with
  | nil => rfl
  | cons c cs ih =>
    simp only [takeBytes, List.map_cons, List.sum_cons,
      Nat.add_sub_cancel_left, ih]
    rw [if_pos (Nat.le_add_right _ _)]

theorem padRight_goLen (s : String) (n : Nat) (h : goLen s ≤ n) :
    goLen (padRight s n) = n := by
  unfold padRight
  by_cases hc : n ≤ goLen s
  · have heq : n = goLen s := Nat.le_antisymm hc h
    rw [if_pos hc, heq]
    show goLen (String.mk (takeBytes s.data ((s.data.map charSize).sum))) = _
    rw [takeBytes_full s.data]
  · rw [if_neg hc, goLen_append, goLen_replicate_one ' ' rfl]
    omega

theorem getD_zipWith_pad :
    ∀ (row : List String) (ws : List Nat) (i : Nat), row.length = ws.length →
      i < ws.length →
      (List.zipWith padRight row ws).getD i "" =
        padRight (row.getD i "") (ws.getD i 0) := by
  intro row
  induction row with
  | nil => intro ws i hlen hi; rw [← hlen] at hi; simp at hi
  | cons s row ih =>
    intro ws i hlen hi
    cases ws with
    | nil => simp at hi
    | cons w ws =>
      cases i with
      | zero => simp
      | succ j =>
        have hlen' : row.length = ws.length := by simpa using hlen
        have hj : j < ws.length := by simpa using hi
        simpa using ih ws j hlen' hj

theorem getD_map_widths (f : Nat → String) :
    ∀ (ws : List Nat) (i : Nat), i < ws.length →
      (ws.map f).getD i "" = f (ws.getD i 0) := by
  intro ws
  induction ws with
  | nil => intro i hi; simp at hi
  | cons w ws ih =>
    intro i hi
    cases i with
    | zero => simp
    | succ j => simpa using ih j (by simpa using hi)

theorem getD_map_goLen : ∀ (l : List String) (i : Nat),
    (l.map goLen).getD i 0 = goLen (l.getD i "") := by
  intro l
  induction l with
  | nil => intro i; rfl
  | cons s l ih =>
    intro i
    cases i with
    | zero => simp
    | succ j => simpa using ih j

/-- C7: each column's display width is the maximum of the header byte length
and all cell byte lengths in that column (NULL cells counting as the empty
string); the divider is one dash run of exactly that width per column,
joined by "-+-"; header and data lines pad every cell to the computed width
and join the cells with " | ". -/
theorem renderer_width_contract (headers : List String)
    (grid : List (List (Option String)))
    (hlen : ∀ r ∈ grid, r.length = headers.length) :
    (viewWidths headers grid).length = headers.length ∧
    (∀ i, i < headers.length →
      (viewWidths headers grid).getD i 0 =
        max (goLen (headers.getD i ""))
          (colMax (grid.map (fun g => g.map cellString)) i)) ∧
    dividerLine (viewWidths headers grid) =
      goJoin "-+-" (dividerSegments (viewWidths headers grid)) ∧
    (∀ i, i < headers.length →
      goLen ((dividerSegments (viewWidths headers grid)).getD i "") =
        (viewWidths headers grid).getD i 0) ∧
    renderLine headers (viewWidths headers grid) =
      goJoin " | " (renderCells headers (viewWidths headers grid)) ∧
    (∀ i, i < headers.length →
      goLen ((renderCells headers (viewWidths headers grid)).getD i "") =
        (viewWidths headers grid).getD i 0) ∧
    (∀ r ∈ grid, ∀ i, i < headers.length →
      goLen ((renderCells (r.map cellString)
          (viewWidths headers grid)).getD i "") =
        (viewWidths headers grid).getD i 0) := by
  have hrows : ∀ r ∈ grid.map (fun g => g.map cellString),
      r.length = (headers.map goLen).length := by
    intro r hr
    obtain ⟨r0, hr0, rfl⟩ := List.mem_map.mp hr
    simp [hlen r0 hr0]
  have hwlen : (viewWidths headers grid).length = headers.length := by
    have h := computeWidths_length (grid.map (fun g => g.map cellString))
      (headers.map goLen) hrows
    simpa [viewWidths, computeWidths] using h
  have hwidth : ∀ i, i < headers.length →
      (viewWidths headers grid).getD i 0 =
        max (goLen (headers.getD i ""))
          (colMax (grid.map (fun g => g.map cellString)) i) := by
    intro i hi
    have hi' : i < (headers.map goLen).length := by simpa using hi
    have h := computeWidths_getD (grid.map (fun g => g.map cellString))
      (headers.map goLen) hrows i hi'
    rw [getD_map_goLen headers i] at h
    exact h
  refine ⟨hwlen, hwidth, rfl, ?_, rfl, ?_, ?_⟩
  · intro i hi
    have hiw : i < (viewWidths headers grid).length := by rw [hwlen]; exact hi
    show goLen (((viewWidths headers grid).map
        (fun w => String.mk (List.replicate w '-'))).getD i "") = _
    rw [getD_map_widths _ (viewWidths headers grid) i hiw]
    exact goLen_replicate_one '-' rfl _
  · intro i hi
    have hlenh : headers.length = (viewWidths headers grid).length := hwlen.symm
    have hiw : i < (viewWidths headers grid).length := by rw [hwlen]; exact hi
    show goLen ((List.zipWith padRight headers
        (viewWidths headers grid)).getD i "") = _
    rw [getD_zipWith_pad headers (viewWidths headers grid) i hlenh hiw]
    apply padRight_goLen
    rw [hwidth i hi]
    exact le_max_left _ _
  · intro r hr i hi
    have hrlen : (r.map cellString).length = (viewWidths headers grid).length := by
      rw [hwlen]
      simp [hlen r hr]
    have hiw : i < (viewWidths headers grid).length := by rw [hwlen]; exact hi
    show goLen ((List.zipWith padRight (r.map cellString)
        (viewWidths headers grid)).getD i "") = _
    rw [getD_zipWith_pad (r.map cellString) (viewWidths headers grid) i hrlen hiw]
    apply padRight_goLen
    rw [hwidth i hi]
    refine le_trans ?_ (le_max_right _ _)
    exact colMax_ge (grid.map (fun g => g.map cellString)) (r.map cellString) i
      (List.mem_map_of_mem _ hr)

/-- Witness for C7: a concrete two-column grid with a NULL cell; column 1's
width is the maximum of goLen "name" and the column's cell lengths, and the
rendered header cell has exactly that byte length. -/
theorem renderer_width_contract_witness :
    (viewWidths ["id", "name"] [[some "1", some "Alpha"], [none, some "B"]]).getD 1 0 =
      max (goLen "name") (colMax [["1", "Alpha"], ["", "B"]] 1) ∧
    goLen ((renderCells ["id", "name"]
        (viewWidths ["id", "name"] [[some "1", some "Alpha"], [none, some "B"]])).getD 1 "") =
      (viewWidths ["id", "name"] [[some "1", some "Alpha"], [none, some "B"]]).getD 1 0 := by
  have h := renderer_width_contract ["id", "name"]
    [[some "1", some "Alpha"], [none, some "B"]] (by decide)
  exact ⟨h.2.1 1 (by decide), h.2.2.2.2.2.1 1 (by decide)⟩
